import Mathlib

/-!
Verification of the ID-allocation engine of the fprime autocoder model builder
(Autocoders/Python/src/fprime_ac/models/TopoFactory.py).

The Python source is shallowly embedded below.  Machine integers in the source
are plain Python ints, so they are modelled as Lean Int.  Fallible code
(uncaught ValueError / TypeError, sys.exit calls, raise Exception) is modelled
with Except: each abort site in the source corresponds to one AcError
constructor carrying exactly the data interpolated into the source's message.
I/O (logging via PRINT.info, the table rendering of passes 5 and the log-file
write) is pure formatting over the returned list and is not modelled; the
value returned by the functions below is exactly the value the source returns.
-/

namespace FprimeTopo

/-! ### Numeric literal parsing

The source converts textual ids with three distinct Python idioms:
- TopoFactory.__id_to_int: int(float(s)) falling back to int(s, 16);
- __set_base_id_list: int(s, 0) (base-0 auto-detection), wrapped in abs().

The parsers below model the grammar Python accepts for these calls on the
inputs the model builder sees: an optional sign, then digits with an optional
fraction for float(s); an optional sign, an optional 0x prefix and hex digits
for int(s, 16); and base-0 auto-detection (0x / 0o / 0b prefixes, otherwise
decimal with no leading zero) for int(s, 0).  Python additionally accepts
surrounding whitespace, underscore digit separators and the float spellings
inf / nan / exponents; those spellings never appear in id attributes and are
not modelled.  int(float(s)) truncates toward zero, hence the fractional
digits are parsed and discarded. -/

def natOfDigits (l : List Char) : Nat :=
  l.foldl (fun a c => 10 * a + (c.toNat - 48)) 0

def hexDigitVal (c : Char) : Option Nat :=
  if '0' ≤ c ∧ c ≤ '9' then some (c.toNat - 48)
  else if 'a' ≤ c ∧ c ≤ 'f' then some (c.toNat - 87)
  else if 'A' ≤ c ∧ c ≤ 'F' then some (c.toNat - 55)
  else none

def natOfHexDigits : List Char → Nat → Option Nat
  | [], acc => some acc
  | c :: rest, acc =>
    match hexDigitVal c with
    | some v => natOfHexDigits rest (16 * acc + v)
    | none => none

/-- Unsigned part of the grammar accepted by Python float(s), with the value
truncated to an integer: digits, optionally followed by a dot and more digits;
at least one digit must be present on one of the two sides. -/
def parseDecCore (l : List Char) : Option Nat :=
  let d := l.takeWhile Char.isDigit
  let rest := l.dropWhile Char.isDigit
  match rest with
  | [] => if d.isEmpty then none else some (natOfDigits d)
  | '.' :: rest2 =>
    let f := rest2.takeWhile Char.isDigit
    let rest3 := rest2.dropWhile Char.isDigit
    if rest3.isEmpty ∧ ¬(d.isEmpty ∧ f.isEmpty) then some (natOfDigits d) else none
  | _ => none

/-- Unsigned part of the grammar accepted by Python int(s, 16): an optional
0x / 0X prefix, then at least one hexadecimal digit. -/
def parseHexCore (l : List Char) : Option Nat :=
  let l' := match l with
    | '0' :: 'x' :: r => r
    | '0' :: 'X' :: r => r
    | r => r
  match l' with
  | [] => none
  | _ => natOfHexDigits l' 0

/-- Unsigned part of the grammar accepted by Python int(s, 0): 0x / 0o / 0b
prefixed hex, octal and binary literals, a string of zeros, or a decimal
literal whose leading digit is nonzero. -/
def parseBase0Core (l : List Char) : Option Nat :=
  match l with
  | '0' :: 'x' :: r | '0' :: 'X' :: r =>
    match r with
    | [] => none
    | _ => natOfHexDigits r 0
  | '0' :: 'o' :: r | '0' :: 'O' :: r =>
    if r ≠ [] ∧ r.all (fun c => '0' ≤ c ∧ c ≤ '7') then
      some (r.foldl (fun a c => 8 * a + (c.toNat - 48)) 0)
    else none
  | '0' :: 'b' :: r | '0' :: 'B' :: r =>
    if r ≠ [] ∧ r.all (fun c => c = '0' ∨ c = '1') then
      some (r.foldl (fun a c => 2 * a + (c.toNat - 48)) 0)
    else none
  | '0' :: r => if r.all (fun c => c = '0') then some 0 else none
  | [] => none
  | l => if l.all Char.isDigit then some (natOfDigits l) else none

/-- Applies an unsigned-literal parser under Python's optional leading sign. -/
def signedParse (core : List Char → Option Nat) (s : String) : Option Int :=
  match s.data with
  | '-' :: l => (core l).map (fun n => -(n : Int))
  | '+' :: l => (core l).map (fun n => (n : Int))
  | l => (core l).map (fun n => (n : Int))

/-- Models int(float(s)): truncation toward zero of the decimal value. -/
def parseDecFloatInt (s : String) : Option Int :=
  signedParse parseDecCore s

/-- Models int(s, 16). -/
def parseHex16 (s : String) : Option Int :=
  signedParse parseHexCore s

/-- Models int(s, 0). -/
def parseBase0 (s : String) : Option Int :=
  signedParse parseBase0Core s

/-- TopoFactory.__id_to_int: try int(float(id_string)); on TypeError or
ValueError fall back to int(id_string, 16).  A failure of the fallback is the
uncaught ValueError modelled as none (a fatal InvalidNumericLiteral at every
call site). -/
def idToInt (s : String) : Option Int :=
  match parseDecFloatInt s with
  | some v => some v
  | none => parseHex16 s

/-! ### Data model

CompXml models the slice of XmlComponentParser the allocation engine reads:
get_events / get_channels / get_commands / get_parameters, each item
contributing the first element of its get_ids() / get_opcodes() /
get_set_opcodes() / get_save_opcodes() list, a raw textual id.  Inst models a
topology instance: get_name, get_base_id, get_base_id_window and
get_component_object; the component object is none when the referenced
component type was not among the parsed component definitions (TopoFactory
only reports that case informationally and leaves the object unset). -/

structure ParamXml where
  idStr : String
  setOpcodeStr : String
  saveOpcodeStr : String
deriving DecidableEq, Repr

structure CompXml where
  name : String
  eventIds : List String
  channelIds : List String
  commandOpcodes : List String
  parameters : List ParamXml
deriving DecidableEq, Repr

structure Inst where
  name : String
  baseId : Option String
  baseIdWindow : Option String
  comp : Option CompXml
deriving DecidableEq, Repr

/-- The kind tag distinguishing the eight sys.exit collision messages of
TopoFactory.__compute_component_base_id_range. -/
inductive IdKind
  | event | channel | command | paramId
  | paramSetDup | paramSetCmd | paramSaveDup | paramSaveCmd
deriving DecidableEq, Repr

/-- The abort sites of the engine.
- invalidLiteral: an uncaught ValueError from int() carrying the literal;
- idCollision: the sys.exit(-1) sites, message naming the component and id;
- baseIdCollision: the raise Exception of pass 3; the message interpolates
  the colliding instance name and base id and the previous instance name,
  base id and window (and only those five values);
- noneCompare: the Python 3 TypeError raised by the comparison
  size > component_calculated_window_range when the range is None. -/
inductive AcError
  | invalidLiteral (literal : String)
  | idCollision (kind : IdKind) (componentName : String) (id : Int)
  | baseIdCollision (name : String) (baseId : Int)
      (prevName : String) (prevId prevWindow : Int)
  | noneCompare
deriving DecidableEq, Repr

/-! ### The ID Range Analyzer: TopoFactory.__compute_component_base_id_range

The source walks events, channels, commands and parameters in that order,
keeping highest_ID across all of them and a per-category list of the ids seen
so far, aborting at the first duplicate.  procIds embeds the three identical
loops over events, channels and commands (they differ only in the message
kind); procParams embeds the parameter loop with its three ids per parameter
and the extra checks against the command opcode list. -/

def updateHighest (hi : Option Int) (id : Int) : Option Int :=
  match hi with
  | none => some id
  | some h => if id > h then some id else some h

def procIds (kind : IdKind) (cname : String) :
    List String → List Int → Option Int → Except AcError (List Int × Option Int)
  | [], seen, hi => .ok (seen, hi)
  | s :: rest, seen, hi =>
    match idToInt s with
    | none => .error (.invalidLiteral s)
    | some id =>
      if id ∈ seen then .error (.idCollision kind cname id)
      else procIds kind cname rest (seen ++ [id]) (updateHighest hi id)

def procParams (cname : String) (cmdIds : List Int) :
    List ParamXml → List Int → List Int → Option Int →
    Except AcError (List Int × Option Int)
  | [], _, ops, hi => .ok (ops, hi)
  | p :: rest, pids, ops, hi =>
    match idToInt p.idStr with
    | none => .error (.invalidLiteral p.idStr)
    | some id =>
      if id ∈ pids then .error (.idCollision .paramId cname id)
      else
        match idToInt p.setOpcodeStr with
        | none => .error (.invalidLiteral p.setOpcodeStr)
        | some so =>
          if so ∈ ops then .error (.idCollision .paramSetDup cname so)
          else if so ∈ cmdIds then .error (.idCollision .paramSetCmd cname so)
          else
            match idToInt p.saveOpcodeStr with
            | none => .error (.invalidLiteral p.saveOpcodeStr)
            | some sv =>
              if sv ∈ ops ++ [so] then .error (.idCollision .paramSaveDup cname sv)
              else if sv ∈ cmdIds then .error (.idCollision .paramSaveCmd cname sv)
              else
                procParams cname cmdIds rest (pids ++ [id]) (ops ++ [so, sv])
                  (updateHighest (updateHighest (updateHighest hi id) so) sv)

/-- TopoFactory.__compute_component_base_id_range.  Returns None for a falsy
component object, highest_ID + 1 when some id was seen, and None (the
implicit Python return) when the component declares no items. -/
def computeComponentBaseIdRange : Option CompXml → Except AcError (Option Int)
  | none => .ok none
  | some c =>
    match procIds .event c.name c.eventIds [] none with
    | .error e => .error e
    | .ok o1 =>
      match procIds .channel c.name c.channelIds [] o1.2 with
      | .error e => .error e
      | .ok o2 =>
        match procIds .command c.name c.commandOpcodes [] o2.2 with
        | .error e => .error e
        | .ok o3 =>
          match procParams c.name o3.1 c.parameters [] [] o3.2 with
          | .error e => .error e
          | .ok o4 =>
            match o4.2 with
            | some h => .ok (some (h + 1))
            | none => .ok none

/-- TopoFactory.__compute_component_ID_amount. -/
def computeComponentIDAmount : Option CompXml → Option Int
  | none => none
  | some c =>
    some (max (max (c.eventIds.length : Int)
                   (c.channelIds.length + 2 * c.parameters.length))
              (max (c.commandOpcodes.length : Int) (c.parameters.length)))

/-! ### The Instance Resolver: TopoFactory.__set_base_id_list -/

/-- The list [n, b, w, inst, component_calculated_window_range, amount] built
by __set_base_id_list.  The b field of a without-ID entry is written exactly
once, during the merge of pass 4. -/
structure Entry where
  name : String
  b : Option Int
  w : Int
  inst : Inst
  range : Option Int
  amount : Option Int
deriving DecidableEq, Repr

/-- The base id of an assigned entry.  Entries carrying an explicit base id
always hold some value; the merge writes the field of the remaining entries
before they are emitted, so on every output of the engine this projection is
the final base id. -/
def bOf (e : Entry) : Int := e.b.getD 0

/-- TopoFactory.__set_base_id_list.  The three abort paths of the source are
the uncaught ValueError of int(inst.get_base_id(), 0), the collision exits
inside __compute_component_base_id_range, and the Python 3 TypeError of the
comparison size > component_calculated_window_range when the calculated range
is None (that comparison was legal in Python 2); they are modelled in the
source's evaluation order. -/
def setBaseIdList (id size : Int) (inst : Inst) : Except AcError Entry :=
  match inst.baseId with
  | none => setRest size inst none
  | some s =>
    match parseBase0 s with
    | none => .error (.invalidLiteral s)
    | some v =>
      setRest size inst
        (some (if id > |v| then |v| + id else |v|))
where
  setRest (size : Int) (inst : Inst) (b : Option Int) : Except AcError Entry :=
    match computeComponentBaseIdRange inst.comp with
    | .error e => .error e
    | .ok range =>
      match inst.baseIdWindow with
      | some s =>
        match parseBase0 s with
        | none => .error (.invalidLiteral s)
        | some v =>
          .ok { name := inst.name, b := b, w := |v|, inst := inst,
                range := range, amount := computeComponentIDAmount inst.comp }
      | none =>
        match range with
        | none => .error .noneCompare
        | some r =>
          .ok { name := inst.name, b := b, w := if size > r then size else r,
                inst := inst, range := some r,
                amount := computeComponentIDAmount inst.comp }

/-! ### The Allocation Engine: TopoFactory.__compute_base_ids -/

/-- Lines 396-398 of the source: a non-positive assembly base id is clamped
to 1 before any instance is resolved. -/
def effectiveBaseId (assemblyBaseId : Int) : Int :=
  if assemblyBaseId ≤ 0 then 1 else assemblyBaseId

/-- Pass 1: resolve every instance and split the entries by whether the
instance carries an explicit base id, preserving the declaration order inside
each of the two lists. -/
def pass1 (id window : Int) : List Inst → Except AcError (List Entry × List Entry)
  | [] => .ok ([], [])
  | inst :: rest =>
    match setBaseIdList id window inst with
    | .error e => .error e
    | .ok t =>
      match pass1 id window rest with
      | .error e => .error e
      | .ok (wi, wo) =>
        if inst.baseId = none then .ok (wi, t :: wo) else .ok (t :: wi, wo)

/-- Stable insertion of a into a list sorted by the strict key order lt:
a is placed before the first element not strictly below it. -/
def insertByLt (lt : Entry → Entry → Bool) (a : Entry) : List Entry → List Entry
  | [] => [a]
  | b :: bs => if lt b a then b :: insertByLt lt a bs else a :: b :: bs

/-- Stable sort by the strict key order lt.  Python's list.sort(key=...) is a
stable ascending sort by key; a stable sort's output is determined uniquely by
the key order, so this insertion sort computes exactly the list the source's
sort calls produce. -/
def sortByLt (lt : Entry → Entry → Bool) : List Entry → List Entry
  | [] => []
  | a :: as => insertByLt lt a (sortByLt lt as)

/-- Pass 2, first sort: initial_comp_with_ID.sort(key=lambda x: x[1]).  Every
entry of the with-ID list holds some base id, on which the key comparison
acts. -/
def sortWithById (l : List Entry) : List Entry :=
  sortByLt (fun u v => decide (bOf u < bOf v)) l

/-- Pass 2, second sort: initial_comp_without_ID.sort(key=lambda x: x[2]). -/
def sortWithoutByWindow (l : List Entry) : List Entry :=
  sortByLt (fun u v => decide (u.w < v.w)) l

/-- Pass 3: walk the sorted with-ID list with prev = ("NONE", 0, 0) and raise
on the first entry whose base id is below prev_id + prev_window. -/
def checkPass3 (prevName : String) (prevId prevWindow : Int) :
    List Entry → Except AcError Unit
  | [] => .ok ()
  | t :: rest =>
    if bOf t < prevId + prevWindow then
      .error (.baseIdCollision t.name (bOf t) prevName prevId prevWindow)
    else checkPass3 t.name (bOf t) t.w rest

/-- Pass 4, the merge loop.  The loop of the source holds at most one pending
item popped from the front of each sorted list; a pending item is always the
next unconsumed element of its list, so the loop state is equivalently the
two unconsumed suffixes, walked here by recursion.  prev_id and prev_window
are the base id and window of the most recently emitted entry (initially the
clamped assembly base id and 0). -/
def mergeIds (fxs fls : List Entry) (p w : Int) : List Entry :=
  match fxs, fls with
  | [], [] => []
  | [], fl :: fls' =>
    { fl with b := some (p + w) } :: mergeIds [] fls' (p + w) fl.w
  | fx :: fxs', [] => fx :: mergeIds fxs' [] (bOf fx) fx.w
  | fx :: fxs', fl :: fls' =>
    if p + w + fl.w ≤ bOf fx then
      { fl with b := some (p + w) } :: mergeIds (fx :: fxs') fls' (p + w) fl.w
    else fx :: mergeIds fxs' (fl :: fls') (bOf fx) fx.w
termination_by fxs.length + fls.length
decreasing_by all_goals (simp only [List.length_cons]; omega)

/-- TopoFactory.__compute_base_ids, passes 1 to 4.  The assembly base id and
window arrive as ints (the config fallback for an absent attribute happens
before this computation).  Pass 5 only formats the returned list. -/
def computeBaseIds (assemblyBaseId assemblyWindow : Int) (instances : List Inst) :
    Except AcError (List Entry) :=
  let id := effectiveBaseId assemblyBaseId
  match pass1 id assemblyWindow instances with
  | .error e => .error e
  | .ok (withId, withoutId) =>
    match checkPass3 "NONE" 0 0 (sortWithById withId) with
    | .error e => .error e
    | .ok _ => .ok (mergeIds (sortWithById withId) (sortWithoutByWindow withoutId) id 0)

/-! ### Derived notions used by the statements -/

/-- Parses a list of textual ids with idToInt, succeeding only when every
element parses. -/
def parseAll : List String → Option (List Int)
  | [] => some []
  | s :: rest =>
    match idToInt s with
    | none => none
    | some v =>
      match parseAll rest with
      | none => none
      | some l => some (v :: l)

/-- The textual ids of one parameter in the order the analyzer reads them. -/
def paramStrings (p : ParamXml) : List String :=
  [p.idStr, p.setOpcodeStr, p.saveOpcodeStr]

/-- The set- and save-opcode strings of one parameter, the ids living in the
shared command opcode namespace. -/
def paramOpStrings (p : ParamXml) : List String :=
  [p.setOpcodeStr, p.saveOpcodeStr]

/-- Every textual id of a component in analyzer reading order. -/
def allIdStrings (c : CompXml) : List String :=
  c.eventIds ++ c.channelIds ++ c.commandOpcodes ++ c.parameters.flatMap paramStrings

/-- The highest_ID accumulator after folding a list of parsed ids. -/
def foldHighest (hi : Option Int) (l : List Int) : Option Int :=
  l.foldl updateHighest hi

/-- The no-overlap invariant claimed of a successful allocation: every entry
assigned before another ends at or before the later entry's base id. -/
def pairwiseNoOverlap (l : List Entry) : Prop :=
  List.Pairwise (fun i j => bOf i + i.w ≤ bOf j) l

instance (l : List Entry) : Decidable (pairwiseNoOverlap l) := by
  unfold pairwiseNoOverlap; infer_instance

/-- u immediately precedes v somewhere in l. -/
def adjacentIn (u v : Entry) (l : List Entry) : Prop :=
  ∃ l₁ l₂, l = l₁ ++ u :: v :: l₂

/-- Each output entry starts at or after the end of the block most recently
emitted before it, beginning from the block (p, w). -/
def chainFrom (p w : Int) : List Entry → Prop
  | [] => True
  | e :: rest => p + w ≤ bOf e ∧ chainFrom (bOf e) e.w rest

/-! ### Helper lemmas -/

theorem parseAll_some_of_mem {l : List String} {out : List Int}
    (h : parseAll l = some out) : ∀ s ∈ l, ∃ v, idToInt s = some v := by
  induction l generalizing out with
  | nil => intro s hs; cases hs
  | cons a rest ih =>
    intro s hs
    unfold parseAll at h
    cases ha : idToInt a with
    | none => rw [ha] at h; cases h
    | some v =>
      rw [ha] at h
      cases hr : parseAll rest with
      | none => rw [hr] at h; cases h
      | some lr =>
        rw [hr] at h
        rcases List.mem_cons.mp hs with rfl | hs'
        · exact ⟨v, ha⟩
        · exact ih hr s hs'

theorem parseAll_cons {s : String} {rest : List String} {v : Int} {l : List Int}
    (hv : idToInt s = some v) (hr : parseAll rest = some l) :
    parseAll (s :: rest) = some (v :: l) := by
  unfold parseAll; rw [hv, hr]

theorem parseAll_append {l₁ l₂ : List String} {o₁ o₂ : List Int}
    (h₁ : parseAll l₁ = some o₁) (h₂ : parseAll l₂ = some o₂) :
    parseAll (l₁ ++ l₂) = some (o₁ ++ o₂) := by
  induction l₁ generalizing o₁ with
  | nil => unfold parseAll at h₁; cases h₁; simpa using h₂
  | cons a rest ih =>
    unfold parseAll at h₁
    cases ha : idToInt a with
    | none => rw [ha] at h₁; cases h₁
    | some v =>
      rw [ha] at h₁
      cases hr : parseAll rest with
      | none => rw [hr] at h₁; cases h₁
      | some lr =>
        rw [hr] at h₁
        cases h₁
        rw [List.cons_append]
        unfold parseAll
        rw [ha, ih hr]
        rfl

theorem updateHighest_eq (hi : Option Int) (a : Int) :
    ∃ u, updateHighest hi a = some u ∧ a ≤ u ∧ (u = a ∨ hi = some u) ∧
      (∀ h₀, hi = some h₀ → h₀ ≤ u) := by
  unfold updateHighest
  cases hi with
  | none =>
    exact ⟨a, rfl, le_refl _, Or.inl rfl, by intro h₀ hh; cases hh⟩
  | some h₀ =>
    by_cases hgt : a > h₀
    · exact ⟨a, by simp [hgt], le_refl _, Or.inl rfl,
        by intro x hx; injection hx with hx; omega⟩
    · exact ⟨h₀, by simp [hgt], by omega, Or.inr rfl,
        by intro x hx; injection hx with hx; omega⟩

theorem foldHighest_some {l : List Int} :
    ∀ {hi : Option Int} {m : Int}, foldHighest hi l = some m →
    (m ∈ l ∨ hi = some m) ∧ (∀ x ∈ l, x ≤ m) ∧ (∀ h₀, hi = some h₀ → h₀ ≤ m) := by
  induction l with
  | nil =>
    intro hi m h
    refine ⟨Or.inr h, ?_, ?_⟩
    · intro x hx; cases hx
    · intro h₀ hh; rw [hh] at h; injection h with h; omega
  | cons a rest ih =>
    intro hi m h
    obtain ⟨u, hu, hau, humem, humono⟩ := updateHighest_eq hi a
    unfold foldHighest at h
    rw [List.foldl_cons, hu] at h
    obtain ⟨hmem, hub, hmono⟩ := ih h
    have hum : u ≤ m := hmono u rfl
    refine ⟨?_, ?_, ?_⟩
    · rcases hmem with hm | hm
      · exact Or.inl (List.mem_cons_of_mem _ hm)
      · injection hm with hm
        rcases humem with hua | hhi
        · exact Or.inl (by rw [← hm, hua]; exact List.mem_cons_self _ _)
        · exact Or.inr (by rw [hhi, hm])
    · intro x hx
      rcases List.mem_cons.mp hx with rfl | hx'
      · omega
      · exact hub x hx'
    · intro h₀ hh
      have := humono h₀ hh
      omega

theorem foldHighest_none {l : List Int} :
    ∀ {hi : Option Int}, foldHighest hi l = none → l = [] ∧ hi = none := by
  induction l with
  | nil => intro hi h; exact ⟨rfl, h⟩
  | cons a rest ih =>
    intro hi h
    obtain ⟨u, hu, -, -, -⟩ := updateHighest_eq hi a
    unfold foldHighest at h
    rw [List.foldl_cons, hu] at h
    have := (ih h).2
    cases this

theorem procIds_ok {k : IdKind} {cn : String} :
    ∀ (ids : List String) (seen : List Int) (hi : Option Int)
      {out : List Int × Option Int},
    procIds k cn ids seen hi = .ok out →
    ∃ l, parseAll ids = some l ∧ out.1 = seen ++ l ∧ out.2 = foldHighest hi l ∧
      l.Nodup ∧ ∀ x ∈ l, x ∉ seen := by
  intro ids
  induction ids with
  | nil =>
    intro seen hi out h
    unfold procIds at h
    injection h with h
    exact ⟨[], rfl, by simp [← h], by simp [← h, foldHighest], List.nodup_nil,
      by intro x hx; cases hx⟩
  | cons s rest ih =>
    intro seen hi out h
    unfold procIds at h
    cases hs : idToInt s with
    | none => rw [hs] at h; cases h
    | some id =>
      rw [hs] at h
      by_cases hmem : id ∈ seen
      · simp only [if_pos hmem] at h; cases h
      · simp only [if_neg hmem] at h
        obtain ⟨l', hpl, h1, h2, hnd, hns⟩ := ih (seen ++ [id]) (updateHighest hi id) h
        refine ⟨id :: l', parseAll_cons hs hpl, ?_, ?_, ?_, ?_⟩
        · rw [h1, List.append_assoc]; rfl
        · rw [h2]; unfold foldHighest; rw [List.foldl_cons]
        · refine List.nodup_cons.mpr ⟨?_, hnd⟩
          intro hid
          exact (hns id hid) (by simp)
        · intro x hx
          rcases List.mem_cons.mp hx with rfl | hx'
          · exact hmem
          · intro hxs
            exact hns x hx' (by simp [hxs])

theorem procIds_error {k : IdKind} {cn : String} :
    ∀ (ids : List String) (seen : List Int) (hi : Option Int) {e : AcError},
    procIds k cn ids seen hi = .error e →
    (∃ s ∈ ids, idToInt s = none ∧ e = .invalidLiteral s) ∨
      ∃ v, e = .idCollision k cn v := by
  intro ids
  induction ids with
  | nil => intro seen hi e h; cases h
  | cons s rest ih =>
    intro seen hi e h
    unfold procIds at h
    cases hs : idToInt s with
    | none =>
      rw [hs] at h
      injection h with h
      exact Or.inl ⟨s, by simp, hs, h.symm⟩
    | some id =>
      rw [hs] at h
      by_cases hmem : id ∈ seen
      · simp only [if_pos hmem] at h
        injection h with h
        exact Or.inr ⟨id, h.symm⟩
      · simp only [if_neg hmem] at h
        rcases ih _ _ h with ⟨s', hs', hn, he⟩ | hcol
        · exact Or.inl ⟨s', by simp [hs'], hn, he⟩
        · exact Or.inr hcol

theorem procParams_ok {cn : String} {cmd : List Int} :
    ∀ (ps : List ParamXml) (pids ops : List Int) (hi : Option Int)
      {out : List Int × Option Int},
    procParams cn cmd ps pids ops hi = .ok out →
    ∃ la lo, parseAll (ps.flatMap paramStrings) = some la ∧
      parseAll (ps.flatMap paramOpStrings) = some lo ∧
      out.2 = foldHighest hi la ∧
      lo.Nodup ∧ (∀ x ∈ lo, x ∉ ops) ∧ (∀ x ∈ lo, x ∉ cmd) := by
  intro ps
  induction ps with
  | nil =>
    intro pids ops hi out h
    unfold procParams at h
    injection h with h
    subst h
    refine ⟨[], [], rfl, rfl, rfl, List.nodup_nil, ?_, ?_⟩
    · intro x hx; cases hx
    · intro x hx; cases hx
  | cons p rest ih =>
    intro pids ops hi out h
    unfold procParams at h
    cases hid : idToInt p.idStr with
    | none => rw [hid] at h; cases h
    | some id =>
      rw [hid] at h
      by_cases hidm : id ∈ pids
      · simp only [if_pos hidm] at h; cases h
      · simp only [if_neg hidm] at h
        cases hso : idToInt p.setOpcodeStr with
        | none => rw [hso] at h; cases h
        | some so =>
          rw [hso] at h
          by_cases hsom : so ∈ ops
          · simp only [if_pos hsom] at h; cases h
          · simp only [if_neg hsom] at h
            by_cases hsoc : so ∈ cmd
            · simp only [if_pos hsoc] at h; cases h
            · simp only [if_neg hsoc] at h
              cases hsv : idToInt p.saveOpcodeStr with
              | none => rw [hsv] at h; cases h
              | some sv =>
                rw [hsv] at h
                by_cases hsvm : sv ∈ ops ++ [so]
                · simp only [if_pos hsvm] at h; cases h
                · simp only [if_neg hsvm] at h
                  by_cases hsvc : sv ∈ cmd
                  · simp only [if_pos hsvc] at h; cases h
                  · simp only [if_neg hsvc] at h
                    obtain ⟨la', lo', hpa, hpo, hhi, hnd, hno, hnc⟩ :=
                      ih (pids ++ [id]) (ops ++ [so, sv])
                        (updateHighest (updateHighest (updateHighest hi id) so) sv) h
                    have hsvso : sv ≠ so := by
                      intro hh; exact hsvm (by simp [hh])
                    have hsvo : sv ∉ ops := by
                      intro hh; exact hsvm (by simp [hh])
                    have hlo' : ∀ x ∈ lo', x ≠ so ∧ x ≠ sv ∧ x ∉ ops := by
                      intro x hx
                      have := hno x hx
                      simp only [List.mem_append, List.mem_cons,
                        List.mem_singleton, not_or] at this
                      exact ⟨by tauto, by tauto, by tauto⟩
                    refine ⟨id :: so :: sv :: la', so :: sv :: lo', ?_, ?_, ?_, ?_, ?_, ?_⟩
                    · have : (p :: rest).flatMap paramStrings =
                          p.idStr :: p.setOpcodeStr :: p.saveOpcodeStr ::
                            rest.flatMap paramStrings := by
                        simp [paramStrings]
                      rw [this]
                      exact parseAll_cons hid (parseAll_cons hso (parseAll_cons hsv hpa))
                    · have : (p :: rest).flatMap paramOpStrings =
                          p.setOpcodeStr :: p.saveOpcodeStr ::
                            rest.flatMap paramOpStrings := by
                        simp [paramOpStrings]
                      rw [this]
                      exact parseAll_cons hso (parseAll_cons hsv hpo)
                    · rw [hhi]; unfold foldHighest
                      rw [List.foldl_cons, List.foldl_cons, List.foldl_cons]
                    · refine List.nodup_cons.mpr ⟨?_, List.nodup_cons.mpr ⟨?_, hnd⟩⟩
                      · intro hm
                        rcases List.mem_cons.mp hm with hm | hm
                        · exact hsvso hm.symm
                        · exact (hlo' so hm).1 rfl
                      · intro hm
                        exact (hlo' sv hm).2.1 rfl
                    · intro x hx
                      rcases List.mem_cons.mp hx with rfl | hx'
                      · exact hsom
                      · rcases List.mem_cons.mp hx' with rfl | hx''
                        · exact hsvo
                        · exact (hlo' x hx'').2.2
                    · intro x hx
                      rcases List.mem_cons.mp hx with rfl | hx'
                      · exact hsoc
                      · rcases List.mem_cons.mp hx' with rfl | hx''
                        · exact hsvc
                        · exact hnc x hx''

theorem procParams_error {cn : String} {cmd : List Int} :
    ∀ (ps : List ParamXml) (pids ops : List Int) (hi : Option Int) {e : AcError},
    procParams cn cmd ps pids ops hi = .error e →
    (∃ s ∈ ps.flatMap paramStrings, idToInt s = none ∧ e = .invalidLiteral s) ∨
      ∃ k v, e = .idCollision k cn v := by
  intro ps
  induction ps with
  | nil => intro pids ops hi e h; cases h
  | cons p rest ih =>
    intro pids ops hi e h
    have hmem3 : p.idStr ∈ (p :: rest).flatMap paramStrings ∧
        p.setOpcodeStr ∈ (p :: rest).flatMap paramStrings ∧
        p.saveOpcodeStr ∈ (p :: rest).flatMap paramStrings := by
      refine ⟨?_, ?_, ?_⟩ <;> simp [paramStrings]
    unfold procParams at h
    cases hid : idToInt p.idStr with
    | none =>
      rw [hid] at h; injection h with h
      exact Or.inl ⟨p.idStr, hmem3.1, hid, h.symm⟩
    | some id =>
      rw [hid] at h
      by_cases hidm : id ∈ pids
      · simp only [if_pos hidm] at h; injection h with h
        exact Or.inr ⟨.paramId, id, h.symm⟩
      · simp only [if_neg hidm] at h
        cases hso : idToInt p.setOpcodeStr with
        | none =>
          rw [hso] at h; injection h with h
          exact Or.inl ⟨p.setOpcodeStr, hmem3.2.1, hso, h.symm⟩
        | some so =>
          rw [hso] at h
          by_cases hsom : so ∈ ops
          · simp only [if_pos hsom] at h; injection h with h
            exact Or.inr ⟨.paramSetDup, so, h.symm⟩
          · simp only [if_neg hsom] at h
            by_cases hsoc : so ∈ cmd
            · simp only [if_pos hsoc] at h; injection h with h
              exact Or.inr ⟨.paramSetCmd, so, h.symm⟩
            · simp only [if_neg hsoc] at h
              cases hsv : idToInt p.saveOpcodeStr with
              | none =>
                rw [hsv] at h; injection h with h
                exact Or.inl ⟨p.saveOpcodeStr, hmem3.2.2, hsv, h.symm⟩
              | some sv =>
                rw [hsv] at h
                by_cases hsvm : sv ∈ ops ++ [so]
                · simp only [if_pos hsvm] at h; injection h with h
                  exact Or.inr ⟨.paramSaveDup, sv, h.symm⟩
                · simp only [if_neg hsvm] at h
                  by_cases hsvc : sv ∈ cmd
                  · simp only [if_pos hsvc] at h; injection h with h
                    exact Or.inr ⟨.paramSaveCmd, sv, h.symm⟩
                  · simp only [if_neg hsvc] at h
                    rcases ih _ _ _ h with ⟨s', hs', hn, he⟩ | hcol
                    · refine Or.inl ⟨s', ?_, hn, he⟩
                      simp only [List.flatMap_cons, List.mem_append]
                      exact Or.inr hs'
                    · exact Or.inr hcol

theorem computeRange_ok {c : CompXml} {r : Option Int}
    (h : computeComponentBaseIdRange (some c) = .ok r) :
    ∃ le lc lk la lo,
      parseAll c.eventIds = some le ∧ parseAll c.channelIds = some lc ∧
      parseAll c.commandOpcodes = some lk ∧
      parseAll (c.parameters.flatMap paramStrings) = some la ∧
      parseAll (c.parameters.flatMap paramOpStrings) = some lo ∧
      le.Nodup ∧ lc.Nodup ∧ lk.Nodup ∧ lo.Nodup ∧ (∀ x ∈ lo, x ∉ lk) ∧
      r = (foldHighest none (le ++ lc ++ lk ++ la)).map (fun m => m + 1) := by
  simp only [computeComponentBaseIdRange] at h
  split at h
  next e h1 => cases h
  next o1 h1 =>
  obtain ⟨le, hle, -, hhi1, hnde, -⟩ := procIds_ok _ _ _ h1
  split at h
  next e h2 => cases h
  next o2 h2 =>
  obtain ⟨lc, hlc, -, hhi2, hndc, -⟩ := procIds_ok _ _ _ h2
  split at h
  next e h3 => cases h
  next o3 h3 =>
  obtain ⟨lk, hlk, hseen3, hhi3, hndk, -⟩ := procIds_ok _ _ _ h3
  split at h
  next e h4 => cases h
  next o4 h4 =>
  obtain ⟨la, lo, hla, hlo, hhi4, hndo, -, hnoc⟩ := procParams_ok _ _ _ _ h4
  refine ⟨le, lc, lk, la, lo, hle, hlc, hlk, hla, hlo,
    hnde, hndc, hndk, hndo, ?_, ?_⟩
  · intro x hx
    have := hnoc x hx
    simpa [hseen3] using this
  · have hfold : o4.2 = foldHighest none (le ++ lc ++ lk ++ la) := by
      rw [hhi4, hhi3, hhi2, hhi1]
      unfold foldHighest
      rw [List.foldl_append, List.foldl_append, List.foldl_append]
    rw [← hfold]
    split at h
    next m ho => injection h with h; rw [← h, ho]; rfl
    next ho => injection h with h; rw [← h, ho]; rfl

theorem computeRange_error {c : CompXml} {e : AcError}
    (h : computeComponentBaseIdRange (some c) = .error e) :
    (∃ s ∈ allIdStrings c, idToInt s = none ∧ e = .invalidLiteral s) ∨
      ∃ k v, e = .idCollision k c.name v := by
  have hmem : ∀ s : String,
      (s ∈ c.eventIds ∨ s ∈ c.channelIds ∨ s ∈ c.commandOpcodes ∨
        s ∈ c.parameters.flatMap paramStrings) → s ∈ allIdStrings c := by
    intro s hs
    unfold allIdStrings
    simp only [List.mem_append]
    tauto
  simp only [computeComponentBaseIdRange] at h
  split at h
  next e1 h1 =>
    injection h with h; subst h
    rcases procIds_error _ _ _ h1 with ⟨s, hs, hn, he⟩ | ⟨v, he⟩
    · exact Or.inl ⟨s, hmem s (Or.inl hs), hn, he⟩
    · exact Or.inr ⟨.event, v, he⟩
  next o1 h1 =>
  split at h
  next e2 h2 =>
    injection h with h; subst h
    rcases procIds_error _ _ _ h2 with ⟨s, hs, hn, he⟩ | ⟨v, he⟩
    · exact Or.inl ⟨s, hmem s (Or.inr (Or.inl hs)), hn, he⟩
    · exact Or.inr ⟨.channel, v, he⟩
  next o2 h2 =>
  split at h
  next e3 h3 =>
    injection h with h; subst h
    rcases procIds_error _ _ _ h3 with ⟨s, hs, hn, he⟩ | ⟨v, he⟩
    · exact Or.inl ⟨s, hmem s (Or.inr (Or.inr (Or.inl hs))), hn, he⟩
    · exact Or.inr ⟨.command, v, he⟩
  next o3 h3 =>
  split at h
  next e4 h4 =>
    injection h with h; subst h
    rcases procParams_error _ _ _ _ h4 with ⟨s, hs, hn, he⟩ | ⟨k, v, he⟩
    · exact Or.inl ⟨s, hmem s (Or.inr (Or.inr (Or.inr hs))), hn, he⟩
    · exact Or.inr ⟨k, v, he⟩
  next o4 h4 =>
  split at h
  next m ho => cases h
  next ho => cases h

/-- C8: the numeric id parser interprets a textual id first as a decimal
(including float-representable strings) and falls back to hexadecimal on
failure: "0x1A" and "26" both parse to the integer 26, "10.0" parses to 10,
and an empty or non-numeric literal fails; at the analyzer's call sites that
failure is the fatal invalid-literal abort surfaced with the offending
literal (here: a component whose only event id is the empty string). -/
theorem claim_C8_id_parsing :
    idToInt "0x1A" = some 26 ∧ idToInt "26" = some 26 ∧
    idToInt "10.0" = some 10 ∧ idToInt "" = none ∧ idToInt "zz" = none ∧
    (∀ s v, parseDecFloatInt s = some v → idToInt s = some v) ∧
    (∀ s, parseDecFloatInt s = none → idToInt s = parseHex16 s) ∧
    computeComponentBaseIdRange
      (some { name := "Comp", eventIds := [""], channelIds := [],
              commandOpcodes := [], parameters := [] }) =
      .error (.invalidLiteral "") := by
  refine ⟨by rfl, by rfl, by rfl, by rfl, by rfl, ?_, ?_, by rfl⟩
  · intro s v h; unfold idToInt; rw [h]
  · intro s h; unfold idToInt; rw [h]

/-- C9: whenever the analyzer completes on a component, its result is one
plus the maximum parsed id over the events, channels, commands and parameter
ids and set and save opcodes, and None when the component declares no items;
an unresolved component (no component object) also yields None. -/
theorem claim_C9_required_range :
    computeComponentBaseIdRange none = .ok none ∧
    ∀ (c : CompXml) (r : Option Int),
      computeComponentBaseIdRange (some c) = .ok r →
      ∃ l, parseAll (allIdStrings c) = some l ∧
        ((l = [] ∧ r = none) ∨
          ∃ m, m ∈ l ∧ (∀ x ∈ l, x ≤ m) ∧ r = some (m + 1)) := by
  refine ⟨rfl, ?_⟩
  intro c r h
  obtain ⟨le, lc, lk, la, lo, hle, hlc, hlk, hla, hlo, -, -, -, -, -, hr⟩ :=
    computeRange_ok h
  refine ⟨le ++ lc ++ lk ++ la, ?_, ?_⟩
  · unfold allIdStrings
    exact parseAll_append (parseAll_append (parseAll_append hle hlc) hlk) hla
  · cases hf : foldHighest none (le ++ lc ++ lk ++ la) with
    | none =>
      obtain ⟨hnil, -⟩ := foldHighest_none hf
      exact Or.inl ⟨hnil, by rw [hr, hf]; rfl⟩
    | some m =>
      obtain ⟨hmem, hub, -⟩ := foldHighest_some hf
      refine Or.inr ⟨m, ?_, hub, by rw [hr, hf]; rfl⟩
      rcases hmem with hm | hm
      · exact hm
      · cases hm

/-- C6: a component with a repeated event id, a repeated channel id, or a
repeated value in the shared opcode namespace of commands and parameter
set and save opcodes makes the analyzer abort with a collision error naming the
component and an offending id (the analyzer runs while instances are being
resolved in pass 1, before any allocation).  The hypotheses say that every id
of the component parses, which the data model guarantees. -/
theorem claim_C6_intra_component_collision
    (c : CompXml) (le lc lk lo : List Int)
    (he : parseAll c.eventIds = some le)
    (hc : parseAll c.channelIds = some lc)
    (hk : parseAll c.commandOpcodes = some lk)
    (ha : (parseAll (c.parameters.flatMap paramStrings)).isSome)
    (ho : parseAll (c.parameters.flatMap paramOpStrings) = some lo)
    (hdup : ¬ le.Nodup ∨ ¬ lc.Nodup ∨ ¬ (lk ++ lo).Nodup) :
    ∃ k v, computeComponentBaseIdRange (some c) = .error (.idCollision k c.name v) := by
  cases hres : computeComponentBaseIdRange (some c) with
  | ok r =>
    obtain ⟨le', lc', lk', la', lo', hle, hlc, hlk, hla, hlo,
      hnde, hndc, hndk, hndo, hdisj, -⟩ := computeRange_ok hres
    rw [he] at hle; injection hle with hle
    rw [hc] at hlc; injection hlc with hlc
    rw [hk] at hlk; injection hlk with hlk
    rw [ho] at hlo; injection hlo with hlo
    subst hle; subst hlc; subst hlk; subst hlo
    rcases hdup with hd | hd | hd
    · exact absurd hnde hd
    · exact absurd hndc hd
    · refine absurd (List.Nodup.append hndk hndo ?_) hd
      intro a hak hao
      exact hdisj a hao hak
  | error e =>
    rcases computeRange_error hres with ⟨s, hs, hn, he'⟩ | ⟨k, v, he'⟩
    · exfalso
      unfold allIdStrings at hs
      simp only [List.mem_append] at hs
      rcases hs with ((hs | hs) | hs) | hs
      · obtain ⟨v, hv⟩ := parseAll_some_of_mem he s hs
        rw [hv] at hn; cases hn
      · obtain ⟨v, hv⟩ := parseAll_some_of_mem hc s hs
        rw [hv] at hn; cases hn
      · obtain ⟨v, hv⟩ := parseAll_some_of_mem hk s hs
        rw [hv] at hn; cases hn
      · obtain ⟨la, hla⟩ := Option.isSome_iff_exists.mp ha
        obtain ⟨v, hv⟩ := parseAll_some_of_mem hla s hs
        rw [hv] at hn; cases hn
    · exact ⟨k, v, by rw [he']⟩


/-- Witness for C6: two events in one component both declaring id 5 abort
the analysis with a collision error naming the component. -/
theorem claim_C6_witness :
    ∃ k v, computeComponentBaseIdRange
      (some { name := "Comp", eventIds := ["5", "5"], channelIds := [],
              commandOpcodes := [], parameters := [] }) =
      .error (.idCollision k "Comp" v) :=
  claim_C6_intra_component_collision
    { name := "Comp", eventIds := ["5", "5"], channelIds := [],
      commandOpcodes := [], parameters := [] }
    [5, 5] [] [] [] (by rfl) (by rfl) (by rfl) (by rfl) (by rfl)
    (Or.inl (by simp))

/-- Witness for C9: a component with events 3 and 19 and a command 7 has
required range 20 = 19 + 1. -/
theorem claim_C9_witness :
    ∃ l, parseAll (allIdStrings
      { name := "W", eventIds := ["3", "19"], channelIds := [],
        commandOpcodes := ["7"], parameters := [] }) = some l ∧
      ((l = [] ∧ (some 20 : Option Int) = none) ∨
        ∃ m, m ∈ l ∧ (∀ x ∈ l, x ≤ m) ∧ (some 20 : Option Int) = some (m + 1)) :=
  claim_C9_required_range.2
    { name := "W", eventIds := ["3", "19"], channelIds := [],
      commandOpcodes := ["7"], parameters := [] }
    (some 20) (by rfl)

/-! ### Inversion lemmas for the Instance Resolver -/

theorem setRest_ok {size : Int} {inst : Inst} {b : Option Int} {e : Entry}
    (h : setBaseIdList.setRest size inst b = .ok e) :
    ∃ range, computeComponentBaseIdRange inst.comp = .ok range ∧
      e.name = inst.name ∧ e.b = b ∧ e.inst = inst ∧ e.range = range ∧
      e.amount = computeComponentIDAmount inst.comp ∧
      ((∃ s v, inst.baseIdWindow = some s ∧ parseBase0 s = some v ∧ e.w = |v|) ∨
        (∃ r, inst.baseIdWindow = none ∧ range = some r ∧
          e.w = if size > r then size else r)) := by
  unfold setBaseIdList.setRest at h
  split at h
  next er hr => cases h
  next range hr =>
  split at h
  next s hw =>
    split at h
    next hp => cases h
    next v hp =>
      injection h with h
      subst h
      exact ⟨range, hr, rfl, rfl, rfl, rfl, rfl, Or.inl ⟨s, v, hw, hp, rfl⟩⟩
  next hw =>
    split at h
    next hnone => cases h
    next r =>
      injection h with h
      subst h
      exact ⟨some r, hr, rfl, rfl, rfl, rfl, rfl, Or.inr ⟨r, hw, rfl, rfl⟩⟩

theorem setBaseIdList_ok_inv {id size : Int} {inst : Inst} {e : Entry}
    (h : setBaseIdList id size inst = .ok e) :
    (inst.baseId = none ∧ setBaseIdList.setRest size inst none = .ok e) ∨
      (∃ s v, inst.baseId = some s ∧ parseBase0 s = some v ∧
        setBaseIdList.setRest size inst
          (some (if id > |v| then |v| + id else |v|)) = .ok e) := by
  unfold setBaseIdList at h
  split at h
  next hnone => exact Or.inl ⟨hnone, h⟩
  next s hsome =>
    split at h
    next hp => cases h
    next v hp => exact Or.inr ⟨s, v, hsome, hp, h⟩

theorem setBaseIdList_ok_rest {id size : Int} {inst : Inst} {e : Entry}
    (h : setBaseIdList id size inst = .ok e) :
    ∃ b, setBaseIdList.setRest size inst b = .ok e := by
  rcases setBaseIdList_ok_inv h with ⟨-, hr⟩ | ⟨s, v, -, -, hr⟩
  · exact ⟨none, hr⟩
  · exact ⟨_, hr⟩

theorem setBaseIdList_w_explicit {id size : Int} {inst : Inst} {s : String}
    {v : Int} {e : Entry} (hw : inst.baseIdWindow = some s)
    (hp : parseBase0 s = some v) (h : setBaseIdList id size inst = .ok e) :
    e.w = |v| := by
  obtain ⟨b, hr⟩ := setBaseIdList_ok_rest h
  obtain ⟨rng, -, -, -, -, -, -, hcase⟩ := setRest_ok hr
  rcases hcase with ⟨s', v', hw', hp', he⟩ | ⟨-, hw', -, -⟩
  · rw [hw] at hw'; injection hw' with hw'
    subst hw'
    rw [hp] at hp'; injection hp' with hp'
    rw [he, hp']
  · rw [hw] at hw'; cases hw'

theorem effectiveBaseId_eq_max (a : Int) : effectiveBaseId a = max a 1 := by
  unfold effectiveBaseId
  split <;> omega

/-- C5: the resolved window is, in priority order, the absolute parsed value
of the instance's explicit window; else, with the component range calculated
as some r, the assembly default when it exceeds r, and r itself otherwise;
and a window smaller than the calculated range is still returned unchanged,
the undersized situation being only logged (third conjunct: the resolver
still succeeds and keeps the explicit window even when it is below the
component's required range). -/
theorem claim_C5_window_priority :
    (∀ (id size : Int) (inst : Inst) (s : String) (v : Int) (e : Entry),
      inst.baseIdWindow = some s → parseBase0 s = some v →
      setBaseIdList id size inst = .ok e → e.w = |v|) ∧
    (∀ (id size : Int) (inst : Inst) (r : Int) (e : Entry),
      inst.baseIdWindow = none →
      setBaseIdList id size inst = .ok e → e.range = some r →
      e.w = if size > r then size else r) ∧
    (∀ (id size : Int) (n s : String) (v : Int) (c : CompXml) (r : Int),
      parseBase0 s = some v →
      computeComponentBaseIdRange (some c) = .ok (some r) → |v| < r →
      setBaseIdList id size
          { name := n, baseId := none, baseIdWindow := some s, comp := some c } =
        .ok { name := n, b := none, w := |v|,
              inst := { name := n, baseId := none, baseIdWindow := some s,
                        comp := some c },
              range := some r, amount := computeComponentIDAmount (some c) }) := by
  refine ⟨?_, ?_, ?_⟩
  · intro id size inst s v e hw hp h
    exact setBaseIdList_w_explicit hw hp h
  · intro id size inst r e hw h hrange
    obtain ⟨b, hr⟩ := setBaseIdList_ok_rest h
    obtain ⟨range, -, -, -, -, herange, -, hcase⟩ := setRest_ok hr
    rcases hcase with ⟨s', -, hw', -, -⟩ | ⟨r', -, hr', he⟩
    · rw [hw] at hw'; cases hw'
    · rw [herange, hr'] at hrange
      injection hrange with hrange
      subst hrange
      exact he
  · intro id size n s v c r hp hc hlt
    unfold setBaseIdList setBaseIdList.setRest
    simp only [hc, hp]

/-- Witness for C5: an instance with explicit window "3" over a component
whose required range is 20 still resolves, keeping the undersized window 3. -/
theorem claim_C5_witness :
    setBaseIdList 1 100
        { name := "u", baseId := none, baseIdWindow := some "3",
          comp := some { name := "CW", eventIds := ["19"], channelIds := [],
                         commandOpcodes := [], parameters := [] } } =
      .ok { name := "u", b := none, w := |(3 : Int)|,
            inst := { name := "u", baseId := none, baseIdWindow := some "3",
                      comp := some { name := "CW", eventIds := ["19"],
                                     channelIds := [], commandOpcodes := [],
                                     parameters := [] } },
            range := some 20,
            amount := computeComponentIDAmount
              (some { name := "CW", eventIds := ["19"], channelIds := [],
                      commandOpcodes := [], parameters := [] }) } :=
  claim_C5_window_priority.2.2 1 100 "u" "3" 3
    { name := "CW", eventIds := ["19"], channelIds := [],
      commandOpcodes := [], parameters := [] }
    20 (by rfl) (by rfl) (by norm_num)

/-- C10: a negative explicit base-id or window literal is parsed by
int(s, 0), silently wrapped by abs() and never rejected: a base id parsing to
v < 0 yields abs v (further offset by the effective assembly base id exactly
as a positive literal would be), a window parsing to v < 0 yields abs v, and
an instance whose base id and window both parse always resolves
successfully. -/
theorem claim_C10_negative_literals :
    (∀ (id size : Int) (inst : Inst) (s : String) (v : Int) (e : Entry),
      inst.baseId = some s → parseBase0 s = some v → v < 0 →
      setBaseIdList id size inst = .ok e →
      e.b = some (if id > -v then -v + id else -v)) ∧
    (∀ (id size : Int) (inst : Inst) (s : String) (v : Int) (e : Entry),
      inst.baseIdWindow = some s → parseBase0 s = some v → v < 0 →
      setBaseIdList id size inst = .ok e → e.w = -v) ∧
    (∀ (id size : Int) (n s s' : String) (v v' : Int),
      parseBase0 s = some v → parseBase0 s' = some v' →
      ∃ e, setBaseIdList id size
        { name := n, baseId := some s, baseIdWindow := some s', comp := none } =
          .ok e ∧ e.b = some (if id > |v| then |v| + id else |v|) ∧ e.w = |v'|) := by
  refine ⟨?_, ?_, ?_⟩
  · intro id size inst s v e hs hp hneg h
    rcases setBaseIdList_ok_inv h with ⟨hnone, -⟩ | ⟨s', v', hsome, hp', hr⟩
    · rw [hs] at hnone; cases hnone
    · rw [hs] at hsome; injection hsome with hsome
      subst hsome
      rw [hp] at hp'; injection hp' with hp'
      subst hp'
      obtain ⟨-, -, -, hb, -, -, -, -⟩ := setRest_ok hr
      rw [hb, abs_of_neg hneg]
  · intro id size inst s v e hw hp hneg h
    have := setBaseIdList_w_explicit hw hp h
    rw [this, abs_of_neg hneg]
  · intro id size n s s' v v' hp hp'
    refine ⟨{ name := n, b := some (if id > |v| then |v| + id else |v|),
              w := |v'|,
              inst := { name := n, baseId := some s, baseIdWindow := some s',
                        comp := none },
              range := none, amount := none }, ?_, rfl, rfl⟩
    unfold setBaseIdList setBaseIdList.setRest
    simp only [hp, hp']
    rfl

/-- Witness for C10: explicit base id "-5" and window "-7" under assembly
base id 1: the resolver succeeds, treats the base id as 5 (1 > 5 fails, so 5
is kept) and the window as 7. -/
theorem claim_C10_witness :
    ∃ e, setBaseIdList 1 100
        { name := "neg", baseId := some "-5", baseIdWindow := some "-7",
          comp := none } =
      .ok e ∧ e.b = some (if (1 : Int) > |(-5 : Int)| then |(-5 : Int)| + 1
                          else |(-5 : Int)|) ∧ e.w = |(-7 : Int)| :=
  claim_C10_negative_literals.2.2 1 100 "neg" "-5" "-7" (-5) (-7)
    (by rfl) (by rfl)

/-- Modelled from the spec: the final base id C4 claims for an instance with
an explicit base id parsing (in absolute value) to parsedAbs, namely
assembly_base_id + parsedAbs when the raw assembly-wide base id exceeds
parsedAbs and parsedAbs unchanged otherwise. -/
def claimC4Base (assemblyBaseId parsedAbs : Int) : Int :=
  if assemblyBaseId > parsedAbs then assemblyBaseId + parsedAbs else parsedAbs

/-- Counterexample to C4: with assembly base id 0 and an instance whose
explicit base id parses to 0, the claim's formula yields 0 (0 does not exceed
0), but the engine clamps the assembly base id to 1 before the comparison and
assigns base id 1. -/
theorem claim_C4_counterexample :
    computeBaseIds 0 100
        [{ name := "a", baseId := some "0", baseIdWindow := some "10",
           comp := none }] =
      .ok [{ name := "a", b := some 1, w := 10,
             inst := { name := "a", baseId := some "0",
                       baseIdWindow := some "10", comp := none },
             range := none, amount := none }] ∧
    parseBase0 "0" = some 0 ∧ claimC4Base 0 0 = 0 ∧ (1 : Int) ≠ 0 := by
  refine ⟨?_, by rfl, by rfl, by omega⟩
  have h0 : parseBase0 "0" = some 0 := by rfl
  have h10 : parseBase0 "10" = some 10 := by rfl
  simp [computeBaseIds, effectiveBaseId, pass1, setBaseIdList,
    setBaseIdList.setRest, computeComponentBaseIdRange, computeComponentIDAmount,
    checkPass3, sortWithById, sortWithoutByWindow, sortByLt, insertByLt, bOf,
    mergeIds, h0, h10]

/-- C4 as amended: the comparison and the offset use the clamped assembly
base id max(assembly_base_id, 1) (the value __compute_base_ids passes to
__set_base_id_list), not the raw assembly base id: the final base id is
abs(parsed) + max(a, 1) when max(a, 1) exceeds abs(parsed), and abs(parsed)
unchanged otherwise. -/
theorem claim_C4_amended (a size : Int) (inst : Inst) (s : String) (v : Int)
    (e : Entry) (hs : inst.baseId = some s) (hp : parseBase0 s = some v)
    (hok : setBaseIdList (effectiveBaseId a) size inst = .ok e) :
    e.b = some (if max a 1 > |v| then |v| + max a 1 else |v|) := by
  rw [← effectiveBaseId_eq_max]
  rcases setBaseIdList_ok_inv hok with ⟨hnone, -⟩ | ⟨s', v', hsome, hp', hr⟩
  · rw [hs] at hnone; cases hnone
  · rw [hs] at hsome; injection hsome with hsome
    subst hsome
    rw [hp] at hp'; injection hp' with hp'
    subst hp'
    obtain ⟨-, -, -, hb, -, -, -, -⟩ := setRest_ok hr
    exact hb

/-- Witness for C4 as amended: assembly base id 7, explicit base id "3":
max(7, 1) = 7 exceeds 3, so the final base id is 3 + 7 = 10. -/
theorem claim_C4_amended_witness :
    ({ name := "x", b := some 10, w := 4,
       inst := { name := "x", baseId := some "3", baseIdWindow := some "4",
                 comp := none },
       range := none, amount := none } : Entry).b =
      some (if max 7 1 > |(3 : Int)| then |(3 : Int)| + max 7 1
            else |(3 : Int)|) :=
  claim_C4_amended 7 100
    { name := "x", baseId := some "3", baseIdWindow := some "4", comp := none }
    "3" 3
    { name := "x", b := some 10, w := 4,
      inst := { name := "x", baseId := some "3", baseIdWindow := some "4",
                comp := none },
      range := none, amount := none }
    rfl (by rfl) (by rfl)

/-- C7: an instance referencing an unknown component type is only reported
and keeps no component object, but the engine then crashes on it instead of
completing: with no explicit window, the Python 3 comparison
assembly_window > None in __set_base_id_list raises TypeError, so allocation
aborts (first conjunct); the claimed non-fatal completion happens only when
the instance carries an explicit window (second conjunct). -/
theorem claim_C7_missing_component_crash :
    computeBaseIds 1 20
        [{ name := "i1", baseId := none, baseIdWindow := none, comp := none }] =
      .error .noneCompare ∧
    computeBaseIds 1 20
        [{ name := "i1", baseId := none, baseIdWindow := some "30",
           comp := none }] =
      .ok [{ name := "i1", b := some 1, w := 30,
             inst := { name := "i1", baseId := none, baseIdWindow := some "30",
                       comp := none },
             range := none, amount := none }] := by
  constructor
  · rfl
  · have h30 : parseBase0 "30" = some 30 := by rfl
    simp [computeBaseIds, effectiveBaseId, pass1, setBaseIdList,
      setBaseIdList.setRest, computeComponentBaseIdRange,
      computeComponentIDAmount, checkPass3, sortWithById, sortWithoutByWindow,
      sortByLt, insertByLt, bOf, mergeIds, h30]

/-! ### Lemmas about the allocation engine -/

theorem effectiveBaseId_pos (a : Int) : 1 ≤ effectiveBaseId a := by
  unfold effectiveBaseId
  split <;> omega

theorem insertByLt_perm (lt : Entry → Entry → Bool) (a : Entry) :
    ∀ l : List Entry, (insertByLt lt a l).Perm (a :: l) := by
  intro l
  induction l with
  | nil => simp [insertByLt]
  | cons b bs ih =>
    unfold insertByLt
    split
    · exact ((ih.cons b).trans (List.Perm.swap a b bs)).symm.symm
    · exact List.Perm.refl _

theorem sortByLt_perm (lt : Entry → Entry → Bool) :
    ∀ l : List Entry, (sortByLt lt l).Perm l := by
  intro l
  induction l with
  | nil => exact List.Perm.refl _
  | cons a as ih =>
    unfold sortByLt
    exact (insertByLt_perm lt a (sortByLt lt as)).trans (ih.cons a)

theorem mem_sortByLt {lt : Entry → Entry → Bool} {l : List Entry} {e : Entry} :
    e ∈ sortByLt lt l ↔ e ∈ l :=
  (sortByLt_perm lt l).mem_iff

theorem pass1_mem_with {id w : Int} :
    ∀ {insts : List Inst} {wi wo : List Entry},
    pass1 id w insts = .ok (wi, wo) →
    ∀ e ∈ wi, ∃ inst ∈ insts, inst.baseId ≠ none ∧ setBaseIdList id w inst = .ok e := by
  intro insts
  induction insts with
  | nil =>
    intro wi wo h e he
    unfold pass1 at h
    injection h with h
    injection h with h1 h2
    rw [← h1] at he
    cases he
  | cons inst rest ih =>
    intro wi wo h e he
    unfold pass1 at h
    split at h
    next => cases h
    next t ht =>
    split at h
    next => cases h
    next wi' wo' hrest =>
    split at h
    next hnone =>
      injection h with h
      injection h with h1 h2
      rw [← h1] at he
      obtain ⟨i, hi, hb, hok⟩ := ih hrest e he
      exact ⟨i, List.mem_cons_of_mem _ hi, hb, hok⟩
    next hsome =>
      injection h with h
      injection h with h1 h2
      rw [← h1] at he
      rcases List.mem_cons.mp he with rfl | he'
      · exact ⟨inst, List.mem_cons_self _ _, hsome, ht⟩
      · obtain ⟨i, hi, hb, hok⟩ := ih hrest e he'
        exact ⟨i, List.mem_cons_of_mem _ hi, hb, hok⟩

theorem setBaseIdList_b_some {id size : Int} {inst : Inst} {e : Entry}
    (hs : inst.baseId ≠ none) (h : setBaseIdList id size inst = .ok e) :
    ∃ v, e.b = some v ∧ id ≤ v := by
  rcases setBaseIdList_ok_inv h with ⟨hnone, -⟩ | ⟨s, v, -, -, hr⟩
  · exact absurd hnone hs
  · obtain ⟨-, -, -, hb, -, -, -, -⟩ := setRest_ok hr
    refine ⟨_, hb, ?_⟩
    have := abs_nonneg v
    split <;> omega

theorem pass1_with_bOf_ge {id w : Int} {insts : List Inst} {wi wo : List Entry}
    (h : pass1 id w insts = .ok (wi, wo)) :
    ∀ e ∈ wi, id ≤ bOf e := by
  intro e he
  obtain ⟨inst, -, hb, hok⟩ := pass1_mem_with h e he
  obtain ⟨v, hbv, hge⟩ := setBaseIdList_b_some hb hok
  rw [bOf, hbv]
  exact hge

theorem checkPass3_ok_chain :
    ∀ (l : List Entry) (pn : String) (pb pw : Int) (u : Unit),
    checkPass3 pn pb pw l = .ok u →
    List.Chain' (fun x y => bOf x + x.w ≤ bOf y) l ∧
      ∀ h, l.head? = some h → pb + pw ≤ bOf h := by
  intro l
  induction l with
  | nil =>
    intro pn pb pw u h
    exact ⟨List.chain'_nil, by intro x hx; cases hx⟩
  | cons t rest ih =>
    intro pn pb pw u h
    unfold checkPass3 at h
    split at h
    next => cases h
    next hge =>
      obtain ⟨hchain, hhead⟩ := ih t.name (bOf t) t.w u h
      refine ⟨?_, ?_⟩
      · cases rest with
        | nil => simp
        | cons t2 rest2 =>
          refine List.chain'_cons.mpr ⟨?_, hchain⟩
          exact hhead t2 rfl
      · intro x hx
        injection hx with hx
        subst hx
        omega

theorem adjacentIn_cons {u v t : Entry} {l : List Entry}
    (h : adjacentIn u v l) : adjacentIn u v (t :: l) := by
  obtain ⟨l₁, l₂, rfl⟩ := h
  exact ⟨t :: l₁, l₂, rfl⟩

theorem chain'_adjacentIn {R : Entry → Entry → Prop} {l : List Entry}
    (h : List.Chain' R l) {u v : Entry} (ha : adjacentIn u v l) : R u v := by
  obtain ⟨l₁, l₂, rfl⟩ := ha
  have h2 := (List.chain'_append.mp h).2.1
  exact (List.chain'_cons.mp h2).1

theorem checkPass3_error_shape :
    ∀ (l : List Entry) (pn : String) (pb pw : Int) (e : AcError),
    checkPass3 pn pb pw l = .error e →
    (∃ t, l.head? = some t ∧ bOf t < pb + pw ∧
      e = .baseIdCollision t.name (bOf t) pn pb pw) ∨
    (∃ u v, adjacentIn u v l ∧ bOf v < bOf u + u.w ∧
      e = .baseIdCollision v.name (bOf v) u.name (bOf u) u.w) := by
  intro l
  induction l with
  | nil => intro pn pb pw e h; cases h
  | cons t rest ih =>
    intro pn pb pw e h
    unfold checkPass3 at h
    split at h
    next hlt =>
      injection h with h
      exact Or.inl ⟨t, rfl, hlt, h.symm⟩
    next hge =>
      rcases ih t.name (bOf t) t.w e h with ⟨t2, ht2, hlt2, he2⟩ | ⟨u, v, ha, hv, he⟩
      · cases rest with
        | nil => cases ht2
        | cons t3 rest3 =>
          injection ht2 with ht2
          subst ht2
          exact Or.inr ⟨t, t3, ⟨[], rest3, rfl⟩, hlt2, he2⟩
      · exact Or.inr ⟨u, v, adjacentIn_cons ha, hv, he⟩

theorem computeBaseIds_eq {a w : Int} {insts : List Inst} {wi wo : List Entry}
    (h1 : pass1 (effectiveBaseId a) w insts = .ok (wi, wo)) :
    computeBaseIds a w insts =
      match checkPass3 "NONE" 0 0 (sortWithById wi) with
      | .error e => .error e
      | .ok _ => .ok (mergeIds (sortWithById wi) (sortWithoutByWindow wo)
          (effectiveBaseId a) 0) := by
  simp only [computeBaseIds, h1]

theorem mem_of_head?_eq {l : List Entry} {t : Entry} (h : l.head? = some t) :
    t ∈ l := by
  cases l with
  | nil => cases h
  | cons x xs =>
    injection h with h
    subst h
    exact List.mem_cons_self _ _

theorem mergeIds_chainFrom :
    ∀ (fxs fls : List Entry) (p w : Int),
    List.Chain' (fun x y => bOf x + x.w ≤ bOf y) fxs →
    (∀ h, fxs.head? = some h → p + w ≤ bOf h) →
    chainFrom p w (mergeIds fxs fls p w) := by
  intro fxs fls p w
  induction fxs, fls, p, w using mergeIds.induct with
  | case1 p w =>
    intro hchain hhead
    simp [mergeIds, chainFrom]
  | case2 p w fl fls' ih =>
    intro hchain hhead
    rw [mergeIds]
    refine ⟨by simp [bOf], ?_⟩
    have hrec := ih List.chain'_nil (by intro h hx; cases hx)
    simpa [bOf] using hrec
  | case3 p w fx fxs' ih =>
    intro hchain hhead
    rw [mergeIds]
    refine ⟨hhead fx rfl, ?_⟩
    obtain ⟨hrel, htail⟩ := List.chain'_cons'.mp hchain
    exact ih htail (fun h hx => hrel h (Option.mem_def.mpr hx))
  | case4 p w fx fxs' fl fls' hle ih =>
    intro hchain hhead
    rw [mergeIds, if_pos hle]
    refine ⟨by simp [bOf], ?_⟩
    have hrec := ih hchain (by
      intro h hx
      injection hx with hx
      subst hx
      exact hle)
    simpa [bOf] using hrec
  | case5 p w fx fxs' fl fls' hgt ih =>
    intro hchain hhead
    rw [mergeIds, if_neg hgt]
    refine ⟨hhead fx rfl, ?_⟩
    obtain ⟨hrel, htail⟩ := List.chain'_cons'.mp hchain
    exact ih htail (fun h hx => hrel h (Option.mem_def.mpr hx))

theorem chainFrom_le :
    ∀ (l : List Entry) (p w : Int), chainFrom p w l → (∀ e ∈ l, 0 ≤ e.w) →
    ∀ e ∈ l, p + w ≤ bOf e := by
  intro l
  induction l with
  | nil => intro p w h hw e he; cases he
  | cons x rest ih =>
    intro p w h hw e he
    obtain ⟨h1, h2⟩ : (p + w ≤ bOf x) ∧ chainFrom (bOf x) x.w rest := h
    rcases List.mem_cons.mp he with rfl | he'
    · exact h1
    · have hx := ih (bOf x) x.w h2 (fun y hy => hw y (List.mem_cons_of_mem _ hy)) e he'
      have hxw : (0 : Int) ≤ x.w := hw x (List.mem_cons_self _ _)
      omega

theorem chainFrom_pairwise :
    ∀ (l : List Entry) (p w : Int), chainFrom p w l → (∀ e ∈ l, 0 ≤ e.w) →
    pairwiseNoOverlap l := by
  intro l
  induction l with
  | nil => intro p w h hw; exact List.Pairwise.nil
  | cons x rest ih =>
    intro p w h hw
    obtain ⟨h1, h2⟩ : (p + w ≤ bOf x) ∧ chainFrom (bOf x) x.w rest := h
    refine List.pairwise_cons.mpr ⟨?_, ?_⟩
    · exact chainFrom_le rest (bOf x) x.w h2
        (fun y hy => hw y (List.mem_cons_of_mem _ hy))
    · exact ih (bOf x) x.w h2 (fun y hy => hw y (List.mem_cons_of_mem _ hy))

/-- C1 as amended: in a run of the allocation engine that completes without
raising and in which every resolved window is non-negative, any entry
assigned before another in the output ends at or before the later entry's
base id: base_id(j) is at least base_id(i) + window(i) for every i before j.
(Without the window restriction only the consecutive-pairs guarantee holds;
see the counterexample.) -/
theorem claim_C1_no_overlap (a w : Int) (insts : List Inst) (out : List Entry)
    (hok : computeBaseIds a w insts = .ok out) (hw : ∀ e ∈ out, 0 ≤ e.w) :
    pairwiseNoOverlap out := by
  simp only [computeBaseIds] at hok
  split at hok
  next e heq => cases hok
  next wi wo h1 =>
  split at hok
  next e heq => cases hok
  next u hchk =>
  injection hok with hok
  subst hok
  have hchain := (checkPass3_ok_chain _ _ _ _ u hchk).1
  have hhead : ∀ h, (sortWithById wi).head? = some h →
      effectiveBaseId a + 0 ≤ bOf h := by
    intro h hx
    have hmem := mem_sortByLt.mp (mem_of_head?_eq hx)
    have := pass1_with_bOf_ge h1 h hmem
    omega
  exact chainFrom_pairwise _ _ _ (mergeIds_chainFrom _ _ _ _ hchain hhead) hw

/-- Modelled from the spec: the back-to-back placement C2 describes, the
first entry at the start cursor plus the previous window (initially zero)
and each subsequent entry at the previous entry's base id plus the previous
entry's window. -/
def specBackToBack (p w : Int) : List Entry → List Entry
  | [] => []
  | e :: rest => { e with b := some (p + w) } :: specBackToBack (p + w) e.w rest

theorem mergeIds_no_fixed :
    ∀ (fls : List Entry) (p w : Int),
    mergeIds [] fls p w = specBackToBack p w fls := by
  intro fls
  induction fls with
  | nil => intro p w; rw [mergeIds]; rfl
  | cons fl fls' ih =>
    intro p w
    rw [mergeIds, specBackToBack, ih]

theorem pass1_all_none {id w : Int} {insts : List Inst} {wi wo : List Entry}
    (hall : ∀ i ∈ insts, i.baseId = none)
    (h : pass1 id w insts = .ok (wi, wo)) : wi = [] := by
  rcases List.eq_nil_or_concat wi with rfl | ⟨l, e, rfl⟩
  · rfl
  · obtain ⟨inst, hi, hb, -⟩ := pass1_mem_with h e (by simp)
    exact absurd (hall inst hi) hb

theorem insertByLt_w_sorted (a : Entry) :
    ∀ l : List Entry, List.Pairwise (fun u v => u.w ≤ v.w) l →
    List.Pairwise (fun u v => u.w ≤ v.w)
      (insertByLt (fun u v => decide (u.w < v.w)) a l) := by
  intro l
  induction l with
  | nil => intro h; simp [insertByLt]
  | cons b bs ih =>
    intro h
    obtain ⟨hb, hbs⟩ := List.pairwise_cons.mp h
    unfold insertByLt
    split
    next hlt =>
      refine List.pairwise_cons.mpr ⟨?_, ih hbs⟩
      intro y hy
      have hy' := (insertByLt_perm _ a bs).mem_iff.mp hy
      rcases List.mem_cons.mp hy' with rfl | hyb
      · have := of_decide_eq_true hlt
        omega
      · exact hb y hyb
    next hge =>
      have hab : a.w ≤ b.w := by
        have := of_decide_eq_false (Bool.of_not_eq_true hge)
        omega
      refine List.pairwise_cons.mpr ⟨?_, h⟩
      intro y hy
      rcases List.mem_cons.mp hy with rfl | hyb
      · exact hab
      · have := hb y hyb
        omega

theorem sortWithoutByWindow_sorted (l : List Entry) :
    List.Pairwise (fun u v => u.w ≤ v.w) (sortWithoutByWindow l) := by
  unfold sortWithoutByWindow
  induction l with
  | nil => exact List.Pairwise.nil
  | cons a as ih =>
    unfold sortByLt
    exact insertByLt_w_sorted a _ ih

/-- C2: when no instance specifies an explicit base id, the output is the
without-ID candidates sorted ascending by window size (the sort is a
permutation of the candidates, ascending in window), placed back to back:
the first at max(assembly_base_id, 1) and each subsequent entry at the
previous entry's base id plus the previous entry's window. -/
theorem claim_C2_no_explicit_ids (a w : Int) (insts : List Inst)
    (wi wo : List Entry) (hall : ∀ i ∈ insts, i.baseId = none)
    (h1 : pass1 (effectiveBaseId a) w insts = .ok (wi, wo)) :
    computeBaseIds a w insts =
      .ok (specBackToBack (max a 1) 0 (sortWithoutByWindow wo)) ∧
    (sortWithoutByWindow wo).Perm wo ∧
    List.Pairwise (fun u v => u.w ≤ v.w) (sortWithoutByWindow wo) := by
  have hwi : wi = [] := pass1_all_none hall h1
  subst hwi
  refine ⟨?_, sortByLt_perm _ wo, sortWithoutByWindow_sorted wo⟩
  rw [computeBaseIds_eq h1]
  show (match checkPass3 "NONE" 0 0 (sortWithById []) with
    | .error e => (.error e : Except AcError (List Entry))
    | .ok _ => .ok (mergeIds (sortWithById []) (sortWithoutByWindow wo)
        (effectiveBaseId a) 0)) = _
  have hs : sortWithById [] = [] := rfl
  rw [hs]
  show (.ok (mergeIds [] (sortWithoutByWindow wo) (effectiveBaseId a) 0) :
    Except AcError (List Entry)) = _
  rw [mergeIds_no_fixed, effectiveBaseId_eq_max]

/-- Witness for C2: two floating instances with explicit windows 7 and 3
under assembly base id 5: the engine sorts them ascending by window and packs
them back to back from max(5, 1) = 5. -/
theorem claim_C2_witness :
    computeBaseIds 5 100
        [{ name := "g1", baseId := none, baseIdWindow := some "7", comp := none },
         { name := "g2", baseId := none, baseIdWindow := some "3", comp := none }] =
      .ok (specBackToBack (max 5 1) 0 (sortWithoutByWindow
        [{ name := "g1", b := none, w := 7,
           inst := { name := "g1", baseId := none, baseIdWindow := some "7",
                     comp := none }, range := none, amount := none },
         { name := "g2", b := none, w := 3,
           inst := { name := "g2", baseId := none, baseIdWindow := some "3",
                     comp := none }, range := none, amount := none }])) ∧
    (sortWithoutByWindow
        [{ name := "g1", b := none, w := 7,
           inst := { name := "g1", baseId := none, baseIdWindow := some "7",
                     comp := none }, range := none, amount := none },
         { name := "g2", b := none, w := 3,
           inst := { name := "g2", baseId := none, baseIdWindow := some "3",
                     comp := none }, range := none, amount := none }]).Perm
      [{ name := "g1", b := none, w := 7,
         inst := { name := "g1", baseId := none, baseIdWindow := some "7",
                   comp := none }, range := none, amount := none },
       { name := "g2", b := none, w := 3,
         inst := { name := "g2", baseId := none, baseIdWindow := some "3",
                   comp := none }, range := none, amount := none }] ∧
    List.Pairwise (fun u v => u.w ≤ v.w) (sortWithoutByWindow
      [{ name := "g1", b := none, w := 7,
         inst := { name := "g1", baseId := none, baseIdWindow := some "7",
                   comp := none }, range := none, amount := none },
       { name := "g2", b := none, w := 3,
         inst := { name := "g2", baseId := none, baseIdWindow := some "3",
                   comp := none }, range := none, amount := none }]) :=
  claim_C2_no_explicit_ids 5 100
    [{ name := "g1", baseId := none, baseIdWindow := some "7", comp := none },
     { name := "g2", baseId := none, baseIdWindow := some "3", comp := none }]
    []
    [{ name := "g1", b := none, w := 7,
       inst := { name := "g1", baseId := none, baseIdWindow := some "7",
                 comp := none }, range := none, amount := none },
     { name := "g2", b := none, w := 3,
       inst := { name := "g2", baseId := none, baseIdWindow := some "3",
                 comp := none }, range := none, amount := none }]
    (by decide)
    (by rfl)

/-! ### C3: the explicit-id pre-check -/

def c3C : Inst :=
  { name := "C", baseId := some "10", baseIdWindow := some "20", comp := none }

def c3D : Inst :=
  { name := "D", baseId := some "15", baseIdWindow := some "5", comp := none }

/-- c3D with a different window (6 instead of 5). -/
def c3D6 : Inst :=
  { name := "D", baseId := some "15", baseIdWindow := some "6", comp := none }

def c3eC : Entry :=
  { name := "C", b := some 10, w := 20, inst := c3C, range := none,
    amount := none }

def c3eD : Entry :=
  { name := "D", b := some 15, w := 5, inst := c3D, range := none,
    amount := none }

/-- Counterexample to C3: explicit base id 10 with window 20 against explicit
base id 15 does raise the collision error and no assignment is produced, but
the error does not report both windows: it carries only the previous (lower)
instance's window, so runs that differ in the colliding instance's own window
(5 versus 6) raise the identical error. -/
theorem claim_C3_counterexample :
    computeBaseIds 1 100 [c3C, c3D] =
      .error (.baseIdCollision "D" 15 "C" 10 20) ∧
    computeBaseIds 1 100 [c3C, c3D6] =
      .error (.baseIdCollision "D" 15 "C" 10 20) := by
  exact ⟨rfl, rfl⟩

/-- C3 as amended: if after sorting the explicit-base-id candidates ascending
by base id some candidate's base id is strictly below the previous
candidate's base id plus the previous candidate's window, the engine raises
BaseIdCollisionError reporting both instance names, both base ids and the
previous candidate's window (the colliding candidate's own window is not part
of the report), and no assignment is produced. -/
theorem claim_C3_explicit_collision (a w : Int) (insts : List Inst)
    (wi wo : List Entry)
    (h1 : pass1 (effectiveBaseId a) w insts = .ok (wi, wo))
    (hviol : ∃ u v, adjacentIn u v (sortWithById wi) ∧ bOf v < bOf u + u.w) :
    ∃ u v, adjacentIn u v (sortWithById wi) ∧ bOf v < bOf u + u.w ∧
      computeBaseIds a w insts =
        .error (.baseIdCollision v.name (bOf v) u.name (bOf u) u.w) := by
  cases hc : checkPass3 "NONE" 0 0 (sortWithById wi) with
  | ok u0 =>
    obtain ⟨u, v, ha, hv⟩ := hviol
    have hchain := (checkPass3_ok_chain _ _ _ _ u0 hc).1
    have := chain'_adjacentIn hchain ha
    omega
  | error e =>
    rcases checkPass3_error_shape _ _ _ _ _ hc with
      ⟨t, ht, hlt, -⟩ | ⟨u, v, ha, hv, he⟩
    · have hge := pass1_with_bOf_ge h1 t (mem_sortByLt.mp (mem_of_head?_eq ht))
      have := effectiveBaseId_pos a
      omega
    · refine ⟨u, v, ha, hv, ?_⟩
      rw [computeBaseIds_eq h1, hc, he]

/-- Witness for C3 as amended: the 10/20 versus 15/5 scenario, applied
through the theorem. -/
theorem claim_C3_witness :
    ∃ u v, adjacentIn u v (sortWithById [c3eC, c3eD]) ∧
      bOf v < bOf u + u.w ∧
      computeBaseIds 1 100 [c3C, c3D] =
        .error (.baseIdCollision v.name (bOf v) u.name (bOf u) u.w) :=
  claim_C3_explicit_collision 1 100 [c3C, c3D] [c3eC, c3eD] []
    (by rfl) ⟨c3eC, c3eD, ⟨[], [], by rfl⟩, by decide⟩

/-! ### C1: the no-overlap invariant -/

/-- A component whose only event has the negative id -3: its required range
is -3 + 1 = -2, a negative window. -/
def c1NegComp : CompXml :=
  { name := "Neg", eventIds := ["-3"], channelIds := [], commandOpcodes := [],
    parameters := [] }

def c1NegInst (n : String) : Inst :=
  { name := n, baseId := none, baseIdWindow := none, comp := some c1NegComp }

def c1NegEntry (n : String) (bv : Int) : Entry :=
  { name := n, b := some bv, w := -2, inst := c1NegInst n, range := some (-2),
    amount := some 1 }

/-- Counterexample to C1 as stated: a run that completes without raising in
which the all-pairs no-overlap bound fails.  Three floating instances whose
component range is the negative -2 (event id -3) under assembly window -2
are packed at base ids 1, -1, -3; the pair (first, third) violates
base_id(third) >= base_id(first) + window(first) since -3 < 1 + (-2).
Consecutive pairs still satisfy the bound; only the transitive claim fails. -/
theorem claim_C1_counterexample :
    computeBaseIds 1 (-2) [c1NegInst "f1", c1NegInst "f2", c1NegInst "f3"] =
      .ok [c1NegEntry "f1" 1, c1NegEntry "f2" (-1), c1NegEntry "f3" (-3)] ∧
    ¬ pairwiseNoOverlap
      [c1NegEntry "f1" 1, c1NegEntry "f2" (-1), c1NegEntry "f3" (-3)] := by
  constructor
  · have hr : computeComponentBaseIdRange (some c1NegComp) = .ok (some (-2)) :=
      rfl
    have hamt : computeComponentIDAmount (some c1NegComp) = some 1 := rfl
    simp [computeBaseIds, effectiveBaseId, pass1, setBaseIdList,
      setBaseIdList.setRest, hr, hamt, checkPass3, sortWithById,
      sortWithoutByWindow, sortByLt, insertByLt, bOf, mergeIds, c1NegInst,
      c1NegEntry]
  · decide

def c1WComp : CompXml :=
  { name := "A", eventIds := ["19"], channelIds := [], commandOpcodes := [],
    parameters := [] }

def c1WInstA : Inst :=
  { name := "A", baseId := none, baseIdWindow := none, comp := some c1WComp }

def c1WInstB : Inst :=
  { name := "B", baseId := some "50", baseIdWindow := some "10", comp := none }

def c1WEntryA : Entry :=
  { name := "A", b := some 1, w := 20, inst := c1WInstA, range := some 20,
    amount := some 1 }

def c1WEntryB : Entry :=
  { name := "B", b := some 50, w := 10, inst := c1WInstB, range := none,
    amount := none }

/-- Witness for C1 as amended: floating instance A (range 20) packed at 1
before fixed instance B at 50 under assembly (1, 10); all windows are
non-negative and no pair of windows overlaps. -/
theorem claim_C1_witness : pairwiseNoOverlap [c1WEntryA, c1WEntryB] :=
  claim_C1_no_overlap 1 10 [c1WInstA, c1WInstB] [c1WEntryA, c1WEntryB]
    (by
      have hr : computeComponentBaseIdRange (some c1WComp) = .ok (some 20) :=
        rfl
      have hamt : computeComponentIDAmount (some c1WComp) = some 1 := rfl
      have h50 : parseBase0 "50" = some 50 := rfl
      have h10 : parseBase0 "10" = some 10 := rfl
      have hrn : computeComponentBaseIdRange none = .ok none := rfl
      have hamtn : computeComponentIDAmount none = none := rfl
      simp [computeBaseIds, effectiveBaseId, pass1, setBaseIdList, hrn, hamtn,
        setBaseIdList.setRest, hr, hamt, h50, h10, checkPass3, sortWithById,
        sortWithoutByWindow, sortByLt, insertByLt, bOf, mergeIds, c1WInstA,
        c1WInstB, c1WEntryA, c1WEntryB])
    (by decide)

/-- Witness for C8: the decimal stage succeeding on "7" makes the parser
return 7 without consulting the hexadecimal fallback. -/
theorem claim_C8_witness : idToInt "7" = some 7 :=
  claim_C8_id_parsing.2.2.2.2.2.1 "7" 7 (by rfl)

end FprimeTopo
